import Mathlib

/-!
Verification development for `pymatgen/io/gwsetup/scheduler_error_parsers.py`.

The Python module scans up to four scheduler log streams for known
diagnostic substrings and produces typed error records with regex-extracted
metadata.  Below, the module is shallowly embedded: Python strings become
`List Char`, the outcome of `open()` on a configured path becomes a
`FileState` (readable content, `IOError`/`OSError` on open, or a `TypeError`
from a non-string path such as the default `None`), and code paths that
raise an uncaught exception are modelled with `Except`.
-/

/-- Python strings are modelled as lists of characters. -/
abbrev PyStr := List Char

/-- Coercion from Lean string literals to the model's string type. -/
def str (s : String) : PyStr := s.data

/-- `\d` of Python 2 `re` without `re.UNICODE`: the ASCII digits. -/
def pyDigit (c : Char) : Bool := '0' ≤ c && c ≤ '9'

/-- Python 2 whitespace: space, `\t`, `\n`, `\v`, `\f`, `\r`. -/
def pySpace (c : Char) : Bool :=
  c = ' ' || c = '\t' || c = '\n' || c = '\x0b' || c = '\x0c' || c = '\r'

/-- `\S` of Python 2 `re`: any non-whitespace character. -/
def pyNonSpace (c : Char) : Bool := !(pySpace c)

/-- One item of a linear regular expression, enough for the patterns used in
the module's rule tables: a literal character, or a greedy repetition of a
character class (`\d+`, `\S*`), optionally recorded as a numbered capture
group. -/
inductive RItem
  | lit (c : Char)
  | cls (p : Char → Bool) (min1 : Bool) (grp : Option Nat)

/-- The capture groups of a successful match: group number to captured text. -/
abbrev Groups := List (Nat × PyStr)

/-- Record a capture group, when the repetition item carries a group number. -/
def addGrp : Option Nat → PyStr → Groups → Groups
  | none, _, g => g
  | some n, s, g => (n, s) :: g

/-- The list `[hi, hi-1, ..., lo]` (empty when `lo > hi`); the candidate
repetition counts of a greedy class item, longest first. -/
def downTo (hi lo : Nat) : List Nat := (List.range' lo (hi + 1 - lo)).reverse

/-- Backtracking matcher for linear patterns, with `re.match` semantics:
the pattern must match a prefix of the input starting at position 0.  On
success it returns the capture groups together with the unconsumed suffix
of the input.  Greedy repetitions try the longest repetition count first
and backtrack, as Python's engine does on these patterns. -/
def matchItems : List RItem → PyStr → Option (Groups × PyStr)
  | [], xs => some ([], xs)
  | .lit _ :: _, [] => none
  | .lit c :: rest, x :: xs => if x = c then matchItems rest xs else none
  | .cls p min1 grp :: rest, xs =>
    let maxN := (xs.takeWhile p).length
    let lo := if min1 then 1 else 0
    (downTo maxN lo).findSome? (fun k =>
      match matchItems rest (xs.drop k) with
      | some (g, rem) => some (addGrp grp (xs.take k) g, rem)
      | none => none)

/-- Look up a capture group by number (Python's `match.group(i)` for the
groups declared in the pattern; group numbers out of range, which raise
`IndexError` in Python, and group 0 are not used by the module's rules and
are out of scope). -/
def grpLookup (n : Nat) (g : Groups) : Option PyStr :=
  (g.find? (fun kv => kv.1 = n)).map (·.2)

/-- `re.match(pattern, line)` followed by `.group(grp)`: the captured text
of group `grp` when the anchored match succeeds, `none` otherwise. -/
def reGroup (pat : List RItem) (grp : Nat) (line : PyStr) : Option PyStr :=
  match matchItems pat line with
  | some (g, _) => grpLookup grp g
  | none => none

/-- Python 2 string comparison: lexicographic by character code. -/
def lexLe : PyStr → PyStr → Bool
  | [], _ => true
  | _ :: _, [] => false
  | a :: as, b :: bs => if a < b then true else if a = b then lexLe as bs else false

/-- The ordering relation underlying `sorted` on Python strings. -/
def lexR (a b : PyStr) : Prop := lexLe a b = true

instance : DecidableRel lexR := fun a b => by unfold lexR; infer_instance

/-- Python's `sorted(set(values))` on a list of strings: sort
lexicographically, drop duplicates. -/
def sorted_set (vs : List PyStr) : List PyStr :=
  (List.insertionSort lexR vs).dedup

/-- The metadata mapping of a record: field name to list of captured values. -/
abbrev MetaDict := List (PyStr × List PyStr)

/-- A metadata filter entry as stored in a rule's `meta_filter` dictionary:
field name, compiled pattern, capture-group number. -/
abbrev MetaFilter := List (PyStr × List RItem × Nat)

/-- Python `dict.update({key: val})`: replace the value of an existing key
in place, otherwise add the binding at the end. -/
def dictUpdate (d : MetaDict) (key : PyStr) (val : List PyStr) : MetaDict :=
  if d.any (fun kv => kv.1 = key) then
    d.map (fun kv => if kv.1 = key then (key, val) else kv)
  else d ++ [(key, val)]

/-- The inner loop of `extract_metadata`: walk the lines, appending the
captured group text of each line whose anchored match succeeds. -/
def collectValues (pat : List RItem) (grp : Nat) (lines : List PyStr) : List PyStr :=
  lines.foldl (fun vs line =>
    match reGroup pat grp line with
    | some v => vs ++ [v]
    | none => vs) []

/-- `AbstractErrorParser.extract_metadata`: for every filter key, anchor-match
its pattern against each line, collect the captured group text of each
successful match, then store `sorted(set(values))` under the key. -/
def extract_metadata (lines : List PyStr) (meta_filter : MetaFilter) : MetaDict :=
  meta_filter.foldl (fun meta_dict kf =>
    dictUpdate meta_dict kf.1 (sorted_set (collectValues kf.2.1 kf.2.2 lines))) []

/-- Boolean prefix test on model strings. -/
def isPrefixB : PyStr → PyStr → Bool
  | [], _ => true
  | _ :: _, [] => false
  | a :: s, b :: l => a = b && isPrefixB s l

/-- Python's `sub in line` on strings: contiguous substring containment. -/
def isSub (s : PyStr) : PyStr → Bool
  | [] => s.isEmpty
  | b :: l => isPrefixB s (b :: l) || isSub s l

/-- The four logical log streams of a parser (`self.files` keys). -/
inductive LogStream
  | err | out | run_err | batch_err
  deriving DecidableEq

/-- The outcome of `open()` on a configured file path: `content s` when the
file is readable with text `s`; `missing` when opening raises
`IOError`/`OSError` (absent or unreadable file); `badPath` when the path has
the wrong type (e.g. the default `None`), which makes `open()` raise
`TypeError`. -/
inductive FileState
  | content (s : PyStr)
  | missing
  | badPath
  deriving DecidableEq

/-- Uncaught Python exceptions the module can raise. -/
inductive PyExc
  /-- The `except TypeError` handler in `parse_single` evaluates
  `self.files[k].cls()`; no object has a `cls` attribute, so the handler
  itself raises `AttributeError`. -/
  | attributeError
  /-- `get_parser` with an unregistered scheduler name calls `None(...)`. -/
  | typeErrorNotCallable
  /-- `PBSErrorParse` does not override the abstract property
  `error_definitions`, so `ABCMeta` refuses instantiation with `TypeError`. -/
  | abstractClassInstantiation
  deriving DecidableEq

/-- One detection rule: the plain substring to look for and the metadata
filter dictionary. -/
structure Rule where
  string : PyStr
  meta_filter : MetaFilter

/-- The per-kind rule dictionary `{file_specifier: {string, meta_filter}}`,
as an association list in declaration order. -/
abbrev RuleSet := List (LogStream × Rule)

/-- The error classes of the module (tags of the class hierarchy rooted at
`AbstractError`; `AbstractError` itself is used as the generic fallback
kind in the Slurm table). -/
inductive ErrKind
  | SubmitError | FullQueueError | DiskError
  | TimeCancelError | MemoryCancelError | NodeFailureError
  | AbstractError
  deriving DecidableEq

/-- A constructed error object: class tag, `errmsg`, `meta_data`. -/
structure ErrRecord where
  kind : ErrKind
  errmsg : Option PyStr
  meta_data : MetaDict
  deriving DecidableEq

/-- `dict.get(key)` on a metadata mapping. -/
def metaGet (m : MetaDict) (key : PyStr) : Option (List PyStr) :=
  (m.find? (fun kv => kv.1 = key)).map (·.2)

/-- The `limit` property of `TimeCancelError` and `MemoryCancelError`:
`self.meta_data.get('broken_limit')`. -/
def ErrRecord.limit (r : ErrRecord) : Option (List PyStr) :=
  metaGet r.meta_data (str "broken_limit")

/-- The `node` property of `NodeFailureError`: `self.meta_data.get('node')`. -/
def ErrRecord.node (r : ErrRecord) : Option (List PyStr) :=
  metaGet r.meta_data (str "node")

/-- `AbstractError.__init__`: `meta_data` falls back to `{}` when `None`. -/
def mkError (kind : ErrKind) (msg : Option PyStr) (meta : Option MetaDict) : ErrRecord :=
  ⟨kind, msg, meta.getD []⟩

/-- `f.read().split('\n')`: split on newline, Python semantics (an empty
string yields `[""]`, a trailing newline yields a final empty line). -/
def splitNl : PyStr → List PyStr
  | [] => [[]]
  | c :: cs =>
    if c = '\n' then [] :: splitNl cs
    else
      match splitNl cs with
      | r :: rs => (c :: r) :: rs
      | [] => [[c]]

/-- The inner line loop of `parse_single`: on each line containing the
match string, overwrite `message` with that line and set `found`. -/
def lineScan (p : PyStr → Bool) (init : Bool × Option PyStr) (lines : List PyStr) :
    Bool × Option PyStr :=
  lines.foldl (fun fm line => if p line then (true, some line) else fm) init

/-- One iteration of `parse_single`'s loop over the streams of a rule set,
threading the `(found, message, metadata)` state.  A `missing` file's
`IOError` is caught and leaves the state unchanged; a `badPath` file's
`TypeError` is caught, but the handler itself raises `AttributeError`
(see `PyExc.attributeError`); a readable file is scanned line by line and,
whenever `found` is set (possibly by an earlier stream), the metadata is
(re)extracted from this stream's lines. -/
def parseStep (files : LogStream → FileState)
    (st : Bool × Option PyStr × Option MetaDict) (kr : LogStream × Rule) :
    Except PyExc (Bool × Option PyStr × Option MetaDict) :=
  match files kr.1 with
  | .missing => .ok st
  | .badPath => .error .attributeError
  | .content s =>
    let lines := splitNl s
    let fm := lineScan (fun line => isSub kr.2.string line) (st.1, st.2.1) lines
    let metadata := if fm.1 then some (extract_metadata lines kr.2.meta_filter) else st.2.2
    .ok (fm.1, fm.2, metadata)

/-- `AbstractErrorParser.parse_single`: scan every stream of the rule set
in order, returning `(found, message, metadata)`. -/
def parse_single (errmsg : RuleSet) (files : LogStream → FileState) :
    Except PyExc (Bool × Option PyStr × Option MetaDict) :=
  errmsg.foldlM (parseStep files) (false, none, none)

/-- `AbstractErrorParser.parse`: for every error kind of the definitions
table, run `parse_single` and append a freshly constructed error object to
the accumulated list when the kind was found. -/
def parse (defs : List (ErrKind × RuleSet)) (files : LogStream → FileState)
    (errors : List ErrRecord) : Except PyExc (List ErrRecord) :=
  defs.foldlM (fun errs kr => do
    let r ← parse_single kr.2 files
    pure (if r.1 then errs ++ [mkError kr.1 r.2.1 r.2.2] else errs)) errors

/-- Helper to turn a Lean string into literal regex items. -/
def lits (s : String) : List RItem := s.data.map RItem.lit

/-- The compiled pattern
`node(\d+)\.(\d+)can't open (\S*), network down \(err=26\)` of the Slurm
`NodeFailureError` rule. -/
def nodePattern : List RItem :=
  lits "node" ++ [RItem.cls pyDigit true (some 1), RItem.lit '.',
    RItem.cls pyDigit true (some 2)] ++ lits "can\x27t open " ++
    [RItem.cls pyNonSpace false (some 3)] ++ lits ", network down (err=26)"

/-- The Slurm `SubmitError` rule. -/
def submitRule : Rule := ⟨str "sbatch: error: Batch job submission failed:", []⟩

/-- The Slurm `FullQueueError` rule. -/
def fullQueueRule : Rule :=
  ⟨str "sbatch: error: Batch job submission failed: Job violates accounting/QOS policy", []⟩

/-- The Slurm `MemoryCancelError` rule. -/
def memoryRule : Rule := ⟨str "Exceeded job memory limit", []⟩

/-- The Slurm `TimeCancelError` rule. -/
def timeRule : Rule := ⟨str "Exceeded job time limit", []⟩

/-- The Slurm `NodeFailureError` rule, with its `node` metadata filter. -/
def nodeRule : Rule :=
  ⟨str "can\x27t open /dev/ipath, network down", [(str "node", nodePattern, 1)]⟩

/-- The Slurm generic-fallback rule on the `out` stream. -/
def fallbackRule : Rule := ⟨str "a string to be found", []⟩

/-- `SlurmErrorParser.error_definitions`, in source declaration order. -/
def slurm_error_definitions : List (ErrKind × RuleSet) :=
  [(.SubmitError, [(.batch_err, submitRule)]),
   (.FullQueueError, [(.batch_err, fullQueueRule)]),
   (.MemoryCancelError, [(.err, memoryRule)]),
   (.TimeCancelError, [(.err, timeRule)]),
   (.NodeFailureError, [(.run_err, nodeRule)]),
   (.AbstractError, [(.out, fallbackRule)])]

/-- The registered parser classes (`ALL_PARSERS` keys). -/
inductive ParserCls
  | slurm | pbs
  deriving DecidableEq

/-- `ALL_PARSERS.get(scheduler)`. -/
def ALL_PARSERS (s : PyStr) : Option ParserCls :=
  if s = str "slurm" then some .slurm
  else if s = str "pbs" then some .pbs
  else none

/-- A constructed parser instance: its rule table and its four file slots. -/
structure SchedulerParser where
  defs : List (ErrKind × RuleSet)
  files : LogStream → FileState

/-- Assemble the `self.files` dictionary from the four constructor
arguments. -/
def mkFiles (e o r b : FileState) : LogStream → FileState
  | .err => e
  | .out => o
  | .run_err => r
  | .batch_err => b

/-- The factory function `get_parser` (renamed for this development):
look the scheduler name up in `ALL_PARSERS` and call the resulting class.
An unregistered name makes `cls` the value `None`, and `None(...)` raises
`TypeError`; `'pbs'` finds `PBSErrorParse`, whose instantiation `ABCMeta`
rejects because the abstract property `error_definitions` is not
overridden. -/
def getParser (scheduler : PyStr) (e o r b : FileState) :
    Except PyExc SchedulerParser :=
  match ALL_PARSERS scheduler with
  | some .slurm => .ok ⟨slurm_error_definitions, mkFiles e o r b⟩
  | some .pbs => .error .abstractClassInstantiation
  | none => .error .typeErrorNotCallable

deriving instance DecidableEq for Except

/-! ### Specification-side functions

Closed-form descriptions of what one `parse_single` pass computes, stated
independently of the left fold that implements it: the message of a stream,
the metadata a stream would contribute, and the final `(found, message,
metadata)` triple of a whole rule set.  The matcher is proved equal to
these below. -/

/-- The message a single stream contributes: the last line of its content
that contains the rule's match string (`none` for an unreadable stream or
when no line matches). -/
def streamMatchMsg (files : LogStream → FileState) (kr : LogStream × Rule) : Option PyStr :=
  match files kr.1 with
  | .content s => (splitNl s).reverse.find? (fun line => isSub kr.2.string line)
  | _ => none

/-- The metadata a single readable stream contributes: the extraction of
its rule's filters over all its lines. -/
def extractOf (files : LogStream → FileState) (kr : LogStream × Rule) : Option MetaDict :=
  match files kr.1 with
  | .content s => some (extract_metadata (splitNl s) kr.2.meta_filter)
  | _ => none

/-- Whether any stream of the rule set has a matching line. -/
def foundSpec (files : LogStream → FileState) (rules : RuleSet) : Bool :=
  rules.any (fun kr => (streamMatchMsg files kr).isSome)

/-- The final message: the contribution of the last stream (in rule-set
order) that has a matching line. -/
def msgSpec (files : LogStream → FileState) (rules : RuleSet) : Option PyStr :=
  rules.reverse.findSome? (streamMatchMsg files)

/-- The final metadata: the extraction of the last readable stream at or
after the first stream with a match (the implementation's `found` flag
latches, so every later readable stream re-extracts, matching or not). -/
def metaSpec (files : LogStream → FileState) : RuleSet → Option MetaDict
  | [] => none
  | kr :: rest =>
    if (streamMatchMsg files kr).isSome then
      (rest.reverse.findSome? (extractOf files)).or (extractOf files kr)
    else metaSpec files rest

/-- The error record one kind's entry contributes to a `parse` pass,
when its rule set was found. -/
def recordSpec (files : LogStream → FileState) (p : ErrKind × RuleSet) : Option ErrRecord :=
  if foundSpec files p.2 then
    some (mkError p.1 (msgSpec files p.2) (metaSpec files p.2))
  else none

/-! ### Concrete inputs used by witnesses and counterexamples -/

/-- The QOS-violation diagnostic line of the Slurm `batch_err` stream. -/
def qosLine : PyStr :=
  str "sbatch: error: Batch job submission failed: Job violates accounting/QOS policy"

/-- Files with only `batch_err` readable, containing the QOS line. -/
def qosFiles : LogStream → FileState :=
  mkFiles .missing .missing .missing (.content qosLine)

/-- First node-failure diagnostic line. -/
def nodeLine1 : PyStr := str "node003.12can\x27t open /dev/ipath, network down (err=26)"

/-- Second node-failure diagnostic line. -/
def nodeLine2 : PyStr := str "node017.2can\x27t open /dev/ipath, network down (err=26)"

/-- Files with only `run_err` readable, containing the two node lines. -/
def nodeFiles : LogStream → FileState :=
  mkFiles .missing .missing (.content (nodeLine1 ++ '\n' :: nodeLine2)) .missing

/-- Files with only `err` readable, containing the time-limit line. -/
def timeFiles : LogStream → FileState :=
  mkFiles (.content (str "Exceeded job time limit")) .missing .missing .missing

/-- Files whose `batch_err` slot holds a wrongly typed path (`None`). -/
def badPathFiles : LogStream → FileState :=
  mkFiles .missing .missing .missing .badPath

/-- A hypothetical multi-stream rule set for one kind: `err` and `out`
both match the string `A`; `run_err` matches nothing but carries a
metadata filter capturing a digit run. -/
def mixRules : RuleSet :=
  [(.err, ⟨str "A", []⟩),
   (.out, ⟨str "A", []⟩),
   (.run_err, ⟨str "ZZZ", [(str "v", [RItem.cls pyDigit true (some 1)], 1)]⟩)]

/-- A one-kind table holding `mixRules`. -/
def mixDefs : List (ErrKind × RuleSet) := [(.DiskError, mixRules)]

/-- Contents for `mixRules`: `err` holds `A1`, `out` holds `A2`,
`run_err` holds `5`. -/
def mixFiles : LogStream → FileState :=
  mkFiles (.content (str "A1")) (.content (str "A2")) (.content (str "5")) .missing

/-- The record the mixed scenario actually produces: message from `out`,
metadata from `run_err`. -/
def mixRecord : ErrRecord :=
  ⟨.DiskError, some (str "A2"), [(str "v", [str "5"])]⟩

/-- Content for the single-stream scan example: three lines, two of which
contain `A`. -/
def c2Content : PyStr := str "A1\nB\nA2"

/-- Files with only `err` readable, holding `c2Content`. -/
def c2Files : LogStream → FileState :=
  mkFiles (.content c2Content) .missing .missing .missing

/-- A rule matching the plain substring `A` with no metadata filters. -/
def c2Rule : Rule := ⟨str "A", []⟩

/-- The two records a QOS-violation `batch_err` stream produces. -/
def qosRecords : List ErrRecord :=
  [⟨.SubmitError, some qosLine, []⟩, ⟨.FullQueueError, some qosLine, []⟩]

/-- The record a time-limit `err` stream produces. -/
def timeRecord : ErrRecord :=
  ⟨.TimeCancelError, some (str "Exceeded job time limit"), []⟩

/-! ### Helper lemmas -/

lemma or_some_or {α : Type} (a : Option α) (x : α) (c : Option α) :
    (a.or (some x)).or c = a.or (some x) := by
  cases a <;> rfl

lemma findSome?_singleton {α β : Type} (f : α → Option β) (a : α) :
    [a].findSome? f = f a := by
  rw [List.findSome?_cons]
  cases f a <;> simp

lemma findRev_isSome {α : Type} (p : α → Bool) (l : List α) :
    (l.reverse.find? p).isSome = l.any p := by
  rcases h : l.reverse.find? p with _ | a
  · rw [Option.isSome_none]
    symm
    rw [List.any_eq_false]
    intro x hx
    exact List.find?_eq_none.mp h x (List.mem_reverse.mpr hx)
  · rw [Option.isSome_some]
    symm
    rw [List.any_eq_true]
    exact ⟨a, List.mem_reverse.mp (List.mem_of_find?_eq_some h), List.find?_some h⟩

lemma lineScan_eq (p : PyStr → Bool) (lines : List PyStr) : ∀ f0 m0,
    lineScan p (f0, m0) lines =
      (f0 || lines.any p, (lines.reverse.find? p).or m0) := by
  induction lines with
  | nil => intro f0 m0; simp [lineScan]
  | cons a t ih =>
    intro f0 m0
    show List.foldl _ (if p a then (true, some a) else (f0, m0)) t = _
    by_cases hpa : p a
    · rw [if_pos hpa]
      show lineScan p (true, some a) t = _
      rw [ih true (some a)]
      rw [List.reverse_cons, List.find?_append, List.find?_cons_of_pos _ hpa,
        or_some_or]
      simp [hpa]
    · rw [if_neg hpa]
      show lineScan p (f0, m0) t = _
      rw [ih f0 m0]
      rw [List.reverse_cons, List.find?_append, List.find?_cons_of_neg _ hpa]
      simp [hpa, Option.or_none]

lemma getLast?_cons_or {α : Type} (a : α) (l : List α) :
    (a :: l).getLast? = l.getLast?.or (some a) := by
  induction l generalizing a with
  | nil => rfl
  | cons b t ih =>
    rw [List.getLast?_cons_cons, ih b, or_some_or]

lemma revFind?_eq_filter_getLast? {α : Type} (p : α → Bool) (l : List α) :
    l.reverse.find? p = (l.filter p).getLast? := by
  induction l with
  | nil => rfl
  | cons a t ih =>
    rw [List.reverse_cons, List.find?_append, ih]
    by_cases hpa : p a
    · rw [List.filter_cons_of_pos hpa, getLast?_cons_or]
      congr 1
      exact List.find?_cons_of_pos _ hpa
    · rw [List.filter_cons_of_neg hpa, List.find?_cons_of_neg _ hpa]
      exact Option.or_none

lemma isPrefixB_iff : ∀ s l : PyStr, isPrefixB s l = true ↔ s <+: l
  | [], l => by simp [isPrefixB, List.nil_prefix]
  | a :: s, [] => by simp [isPrefixB]
  | a :: s, b :: l => by
    show (decide (a = b) && isPrefixB s l) = true ↔ _
    rw [Bool.and_eq_true, decide_eq_true_iff, isPrefixB_iff s l,
      List.cons_prefix_cons]

lemma isSub_iff : ∀ (s l : PyStr), isSub s l = true ↔ s <:+: l
  | s, [] => by
    show s.isEmpty = true ↔ _
    rw [List.infix_nil]
    cases s <;> simp [List.isEmpty]
  | s, b :: l => by
    show (isPrefixB s (b :: l) || isSub s l) = true ↔ _
    rw [Bool.or_eq_true, isPrefixB_iff, isSub_iff s l, List.infix_cons_iff]

lemma lexLe_cons_iff (a b : Char) (as bs : PyStr) :
    lexLe (a :: as) (b :: bs) = true ↔ a < b ∨ (a = b ∧ lexLe as bs = true) := by
  show (if a < b then true else if a = b then lexLe as bs else false) = true ↔ _
  split_ifs with h1 h2
  · simp [h1]
  · simp [h1, h2]
  · simp [h1, h2]

lemma lexLe_total : ∀ a b : PyStr, lexLe a b = true ∨ lexLe b a = true
  | [], _ => Or.inl rfl
  | _ :: _, [] => Or.inr rfl
  | a :: as, b :: bs => by
    rcases lt_trichotomy a b with h | h | h
    · exact Or.inl ((lexLe_cons_iff a b as bs).mpr (Or.inl h))
    · subst h
      rcases lexLe_total as bs with ht | ht
      · exact Or.inl ((lexLe_cons_iff a a as bs).mpr (Or.inr ⟨rfl, ht⟩))
      · exact Or.inr ((lexLe_cons_iff a a bs as).mpr (Or.inr ⟨rfl, ht⟩))
    · exact Or.inr ((lexLe_cons_iff b a bs as).mpr (Or.inl h))

lemma lexLe_trans : ∀ a b c : PyStr,
    lexLe a b = true → lexLe b c = true → lexLe a c = true
  | [], _, _, _, _ => rfl
  | _ :: _, [], _, hab, _ => by cases hab
  | _ :: _, _ :: _, [], _, hbc => by cases hbc
  | a :: as, b :: bs, c :: cs, hab, hbc => by
    rw [lexLe_cons_iff] at hab hbc ⊢
    rcases hab with h1 | ⟨h1, h1t⟩
    · rcases hbc with h2 | ⟨h2, _⟩
      · exact Or.inl (lt_trans h1 h2)
      · exact Or.inl (h2 ▸ h1)
    · rcases hbc with h2 | ⟨h2, h2t⟩
      · exact Or.inl (h1 ▸ h2)
      · exact Or.inr ⟨h1.trans h2, lexLe_trans as bs cs h1t h2t⟩

lemma sorted_set_spec (vs : List PyStr) :
    List.Sorted lexR (sorted_set vs) ∧ (sorted_set vs).Nodup ∧
      ∀ v, v ∈ sorted_set vs ↔ v ∈ vs := by
  haveI : IsTotal PyStr lexR := ⟨lexLe_total⟩
  haveI : IsTrans PyStr lexR := ⟨lexLe_trans⟩
  refine ⟨?_, List.nodup_dedup _, ?_⟩
  · exact List.Pairwise.sublist (List.dedup_sublist _)
      (List.sorted_insertionSort lexR vs)
  · intro v
    rw [sorted_set, List.mem_dedup, List.mem_insertionSort]

lemma collectValues_eq (pat : List RItem) (grp : Nat) (lines : List PyStr) :
    collectValues pat grp lines = lines.filterMap (fun line => reGroup pat grp line) := by
  suffices h : ∀ vs, lines.foldl (fun vs line =>
      match reGroup pat grp line with
      | some v => vs ++ [v]
      | none => vs) vs = vs ++ lines.filterMap (fun line => reGroup pat grp line) by
    simpa using h []
  induction lines with
  | nil => intro vs; simp
  | cons a t ih =>
    intro vs
    rw [List.foldl_cons, List.filterMap_cons]
    cases h : reGroup pat grp a with
    | none => simp only [h]; exact ih vs
    | some v => simp only [h]; rw [ih (vs ++ [v])]; simp

lemma dictUpdate_not_mem (d : MetaDict) (key : PyStr) (val : List PyStr)
    (h : ∀ kv ∈ d, kv.1 ≠ key) :
    dictUpdate d key val = d ++ [(key, val)] := by
  rw [dictUpdate, if_neg]
  intro hmem
  rw [List.any_eq_true] at hmem
  obtain ⟨kv, hkv, he⟩ := hmem
  exact h kv hkv (by simpa using he)

lemma extract_metadata_eq (lines : List PyStr) (filters : MetaFilter)
    (h : (filters.map (fun kf => kf.1)).Nodup) :
    extract_metadata lines filters =
      filters.map (fun kf =>
        (kf.1, sorted_set (lines.filterMap (fun line => reGroup kf.2.1 kf.2.2 line)))) := by
  suffices hgen : ∀ (fs : MetaFilter) (acc : MetaDict),
      (fs.map (fun kf => kf.1)).Nodup →
      (∀ kv ∈ acc, ∀ kf ∈ fs, kv.1 ≠ kf.1) →
      fs.foldl (fun meta_dict kf =>
        dictUpdate meta_dict kf.1 (sorted_set (collectValues kf.2.1 kf.2.2 lines))) acc
        = acc ++ fs.map (fun kf =>
            (kf.1, sorted_set (lines.filterMap (fun line => reGroup kf.2.1 kf.2.2 line)))) by
    have := hgen filters [] h (by simp)
    simpa [extract_metadata] using this
  intro fs
  induction fs with
  | nil => intro acc _ _; simp
  | cons kf rest ih =>
    intro acc hnd hdisj
    rw [List.foldl_cons]
    rw [dictUpdate_not_mem acc kf.1 _
      (fun kv hkv => hdisj kv hkv kf (List.mem_cons_self kf rest))]
    rw [List.map_cons] at hnd ⊢
    have hkf : kf.1 ∉ rest.map (fun kf => kf.1) := (List.nodup_cons.mp hnd).1
    rw [ih (acc ++ [(kf.1, sorted_set (collectValues kf.2.1 kf.2.2 lines))])
      (List.nodup_cons.mp hnd).2 ?_]
    · rw [collectValues_eq]
      simp
    · intro kv hkv kg hkg
      rcases List.mem_append.mp hkv with hkv | hkv
      · exact hdisj kv hkv kg (List.mem_cons_of_mem kf hkg)
      · have : kv = (kf.1, sorted_set (collectValues kf.2.1 kf.2.2 lines)) := by
          simpa using hkv
        subst this
        intro he
        exact hkf (he ▸ List.mem_map_of_mem (fun kf => kf.1) hkg)

lemma matchItems_suffix : ∀ (pat : List RItem) (line : PyStr) (g : Groups) (rest : PyStr),
    matchItems pat line = some (g, rest) → rest <:+ line
  | [], line, g, rest => by
    intro h
    rw [show matchItems [] line = some ([], line) from rfl] at h
    cases h
    exact List.suffix_refl _
  | .lit c :: pr, [], g, rest => by
    intro h
    cases h
  | .lit c :: pr, x :: xs, g, rest => by
    intro h
    rw [show matchItems (.lit c :: pr) (x :: xs)
        = if x = c then matchItems pr xs else none from rfl] at h
    split at h
    · exact (matchItems_suffix pr xs g rest h).trans (List.suffix_cons x xs)
    · cases h
  | .cls p m1 grp :: pr, xs, g, rest => by
    intro h
    rw [show matchItems (.cls p m1 grp :: pr) xs
        = (downTo (xs.takeWhile p).length (if m1 then 1 else 0)).findSome? (fun k =>
            match matchItems pr (xs.drop k) with
            | some (gr, rem) => some (addGrp grp (xs.take k) gr, rem)
            | none => none) from rfl] at h
    obtain ⟨_, k, _, _, hk, _⟩ := List.findSome?_eq_some_iff.mp h
    revert hk
    cases hmi : matchItems pr (xs.drop k) with
    | none => intro hk; simp at hk
    | some gr =>
      intro hk
      simp only at hk
      cases hk
      exact (matchItems_suffix pr (xs.drop k) gr.1 gr.2 hmi).trans
        (List.drop_suffix k xs)

lemma streamMatchMsg_isSome_content (files : LogStream → FileState)
    (kr : LogStream × Rule) (s : PyStr) (hk : files kr.1 = .content s) :
    (streamMatchMsg files kr).isSome
      = (splitNl s).any (fun line => isSub kr.2.string line) := by
  rw [streamMatchMsg, hk]
  exact findRev_isSome _ _

lemma foldlM_parseStep_eq (files : LogStream → FileState) : ∀ (rules : RuleSet),
    (∀ kr ∈ rules, files kr.1 ≠ .badPath) → ∀ f0 m0 d0,
    List.foldlM (parseStep files) ((f0, m0, d0) :
        Bool × Option PyStr × Option MetaDict) rules =
      .ok (f0 || foundSpec files rules,
        (msgSpec files rules).or m0,
        if f0 then (rules.reverse.findSome? (extractOf files)).or d0
        else (metaSpec files rules).or d0) := by
  intro rules
  induction rules with
  | nil =>
    intro _ f0 m0 d0
    simp only [List.foldlM_nil, foundSpec, msgSpec, metaSpec, List.any_nil,
      List.reverse_nil, List.findSome?_nil, Option.none_or, Bool.or_false,
      ite_self]
    rfl
  | cons kr rest ih =>
    intro hnb f0 m0 d0
    have hkr : files kr.1 ≠ .badPath := hnb kr (List.mem_cons_self kr rest)
    have hrest : ∀ kr ∈ rest, files kr.1 ≠ .badPath :=
      fun x hx => hnb x (List.mem_cons_of_mem kr hx)
    rw [List.foldlM_cons]
    have hmsg : msgSpec files (kr :: rest)
        = (msgSpec files rest).or (streamMatchMsg files kr) := by
      rw [msgSpec, msgSpec, List.reverse_cons, List.findSome?_append,
        findSome?_singleton]
    have hext : (kr :: rest).reverse.findSome? (extractOf files)
        = (rest.reverse.findSome? (extractOf files)).or (extractOf files kr) := by
      rw [List.reverse_cons, List.findSome?_append, findSome?_singleton]
    cases hk : files kr.1 with
    | badPath => exact absurd hk hkr
    | missing =>
      have hsm : streamMatchMsg files kr = none := by rw [streamMatchMsg, hk]
      have hex : extractOf files kr = none := by rw [extractOf, hk]
      rw [show parseStep files (f0, m0, d0) kr = .ok (f0, m0, d0) by
        rw [parseStep, hk]]
      rw [show ((Except.ok (f0, m0, d0) : Except PyExc _) >>= fun st =>
          List.foldlM (parseStep files) st rest)
        = List.foldlM (parseStep files) (f0, m0, d0) rest from rfl]
      rw [ih hrest f0 m0 d0]
      rw [hmsg, hsm, Option.or_none, hext, hex, Option.or_none]
      rw [show foundSpec files (kr :: rest)
        = ((streamMatchMsg files kr).isSome || foundSpec files rest) from rfl]
      rw [hsm]
      rw [show metaSpec files (kr :: rest)
        = if (streamMatchMsg files kr).isSome then
            (rest.reverse.findSome? (extractOf files)).or (extractOf files kr)
          else metaSpec files rest from rfl]
      rw [hsm]
      simp
    | content s =>
      have hsm : streamMatchMsg files kr
          = (splitNl s).reverse.find? (fun line => isSub kr.2.string line) := by
        rw [streamMatchMsg, hk]
      have hex : extractOf files kr
          = some (extract_metadata (splitNl s) kr.2.meta_filter) := by
        rw [extractOf, hk]
      rw [show parseStep files (f0, m0, d0) kr = .ok
          ((lineScan (fun line => isSub kr.2.string line) (f0, m0) (splitNl s)).1,
           (lineScan (fun line => isSub kr.2.string line) (f0, m0) (splitNl s)).2,
           if (lineScan (fun line => isSub kr.2.string line) (f0, m0) (splitNl s)).1
           then some (extract_metadata (splitNl s) kr.2.meta_filter) else d0) by
        rw [parseStep, hk]]
      rw [lineScan_eq]
      rw [show ∀ (st : Bool × Option PyStr × Option MetaDict),
          ((Except.ok st : Except PyExc _) >>= fun st =>
            List.foldlM (parseStep files) st rest)
          = List.foldlM (parseStep files) st rest from fun _ => rfl]
      set A := (splitNl s).any (fun line => isSub kr.2.string line) with hA
      set F := (splitNl s).reverse.find? (fun line => isSub kr.2.string line) with hF
      have hFA : F.isSome = A := findRev_isSome _ _
      rw [ih hrest (f0 || A) (F.or m0)
        (if f0 || A then some (extract_metadata (splitNl s) kr.2.meta_filter) else d0)]
      rw [show foundSpec files (kr :: rest)
        = ((streamMatchMsg files kr).isSome || foundSpec files rest) from rfl]
      rw [show metaSpec files (kr :: rest)
        = if (streamMatchMsg files kr).isSome then
            (rest.reverse.findSome? (extractOf files)).or (extractOf files kr)
          else metaSpec files rest from rfl]
      rw [hmsg, hext, hsm, hFA, hex]
      cases f0 <;> cases hAv : A <;>
        simp [Bool.or_assoc, Option.or_assoc, or_some_or]

lemma ok_bind {ε α β : Type} (a : α) (f : α → Except ε β) :
    (Except.ok a >>= f) = f a := rfl

lemma error_bind {ε α β : Type} (e : ε) (f : α → Except ε β) :
    ((Except.error e : Except ε α) >>= f) = Except.error e := rfl

lemma parse_single_eq (files : LogStream → FileState) (rules : RuleSet)
    (h : ∀ kr ∈ rules, files kr.1 ≠ .badPath) :
    parse_single rules files =
      .ok (foundSpec files rules, msgSpec files rules, metaSpec files rules) := by
  rw [parse_single, foldlM_parseStep_eq files rules h false none none]
  simp [Option.or_none]

lemma foldlM_parseStep_badPath (files : LogStream → FileState) : ∀ (rules : RuleSet),
    (∃ kr ∈ rules, files kr.1 = .badPath) → ∀ st,
    List.foldlM (parseStep files) st rules = .error .attributeError := by
  intro rules
  induction rules with
  | nil =>
    rintro ⟨kr, h, _⟩
    cases h
  | cons kr rest ih =>
    rintro ⟨kx, hkx, hbad⟩ st
    rw [List.foldlM_cons]
    rcases List.mem_cons.mp hkx with rfl | hkx'
    · rw [show parseStep files st kx = .error .attributeError by
        rw [parseStep, hbad]]
      rfl
    · cases hk : files kr.1 with
      | badPath =>
        rw [show parseStep files st kr = .error .attributeError by
          rw [parseStep, hk]]
        rfl
      | missing =>
        rw [show parseStep files st kr = .ok st by rw [parseStep, hk]]
        rw [ok_bind]
        exact ih ⟨kx, hkx', hbad⟩ st
      | content s =>
        rw [show parseStep files st kr = .ok
            ((lineScan (fun line => isSub kr.2.string line) (st.1, st.2.1) (splitNl s)).1,
             (lineScan (fun line => isSub kr.2.string line) (st.1, st.2.1) (splitNl s)).2,
             if (lineScan (fun line => isSub kr.2.string line) (st.1, st.2.1) (splitNl s)).1
             then some (extract_metadata (splitNl s) kr.2.meta_filter) else st.2.2) by
          rw [parseStep, hk]]
        rw [ok_bind]
        exact ih ⟨kx, hkx', hbad⟩ _

lemma parse_single_badPath (files : LogStream → FileState) (rules : RuleSet)
    (h : ∃ kr ∈ rules, files kr.1 = .badPath) :
    parse_single rules files = .error .attributeError :=
  foldlM_parseStep_badPath files rules h _

lemma parse_eq (files : LogStream → FileState) : ∀ (defs : List (ErrKind × RuleSet)),
    (∀ p ∈ defs, ∀ kr ∈ p.2, files kr.1 ≠ .badPath) → ∀ e0,
    parse defs files e0 = .ok (e0 ++ defs.filterMap (recordSpec files)) := by
  intro defs
  induction defs with
  | nil =>
    intro _ e0
    simp only [parse, List.foldlM_nil, List.filterMap_nil, List.append_nil]
    rfl
  | cons p ds ih =>
    intro h e0
    rw [parse, List.foldlM_cons]
    show (parse_single p.2 files >>= fun r =>
        pure (if r.1 then e0 ++ [mkError p.1 r.2.1 r.2.2] else e0)) >>=
        (fun e1 => List.foldlM _ e1 ds) = _
    rw [parse_single_eq files p.2 (h p (List.mem_cons_self p ds)), ok_bind]
    show (Except.ok (if foundSpec files p.2 then
        e0 ++ [mkError p.1 (msgSpec files p.2) (metaSpec files p.2)] else e0) :
        Except PyExc _) >>= _ = _
    rw [ok_bind]
    have hds := ih (fun q hq => h q (List.mem_cons_of_mem p hq))
    rw [List.filterMap_cons]
    by_cases hf : foundSpec files p.2
    · rw [if_pos hf]
      rw [show recordSpec files p
        = some (mkError p.1 (msgSpec files p.2) (metaSpec files p.2)) by
          rw [recordSpec, if_pos hf]]
      show parse ds files _ = _
      rw [hds]
      simp
    · rw [if_neg hf]
      rw [show recordSpec files p = none by rw [recordSpec, if_neg hf]]
      exact hds e0

lemma parse_cons (files : LogStream → FileState) (p : ErrKind × RuleSet)
    (ds : List (ErrKind × RuleSet)) (e0 : List ErrRecord) :
    parse (p :: ds) files e0 = (parse_single p.2 files >>= fun r =>
      parse ds files (if r.1 then e0 ++ [mkError p.1 r.2.1 r.2.2] else e0)) := by
  rw [parse, List.foldlM_cons]
  rcases parse_single p.2 files with e | r <;> rfl

lemma parse_ok_noBad (files : LogStream → FileState) : ∀ (defs : List (ErrKind × RuleSet))
    (e0 l : List ErrRecord), parse defs files e0 = .ok l →
    ∀ p ∈ defs, ∀ kr ∈ p.2, files kr.1 ≠ .badPath := by
  intro defs
  induction defs with
  | nil =>
    intro _ _ _ p hp
    cases hp
  | cons p ds ih =>
    intro e0 l hok q hq kr hkr hbad
    rw [parse_cons] at hok
    rcases hps : parse_single p.2 files with e | r
    · rw [hps, error_bind] at hok
      cases hok
    · rw [hps, ok_bind] at hok
      rcases List.mem_cons.mp hq with rfl | hq'
      · rw [parse_single_badPath files q.2 ⟨kr, hkr, hbad⟩] at hps
        cases hps
      · exact ih _ l hok q hq' kr hkr hbad

lemma parse_append (defs : List (ErrKind × RuleSet)) (files : LogStream → FileState) :
    ∀ e0, parse defs files e0 = (parse defs files []).map (fun l => e0 ++ l) := by
  induction defs with
  | nil =>
    intro e0
    show (pure e0 : Except PyExc _) = Except.ok (e0 ++ [])
    rw [List.append_nil]
    rfl
  | cons p ds ih =>
    intro e0
    rw [parse_cons, parse_cons]
    rcases parse_single p.2 files with e | r
    · rfl
    · rw [ok_bind, ok_bind]
      have h1 : (if r.1 then e0 ++ [mkError p.1 r.2.1 r.2.2] else e0)
          = e0 ++ (if r.1 then [] ++ [mkError p.1 r.2.1 r.2.2] else []) := by
        cases r.1 <;> simp
      rw [h1, ih, ih (if r.1 then [] ++ [mkError p.1 r.2.1 r.2.2] else [])]
      rcases parse ds files [] with e | t
      · rfl
      · show Except.ok (e0 ++ _ ++ t) = Except.ok (e0 ++ (_ ++ t))
        rw [List.append_assoc]

lemma recordSpec_kind (files : LogStream → FileState) (p : ErrKind × RuleSet)
    (r : ErrRecord) (h : recordSpec files p = some r) : r.kind = p.1 := by
  rw [recordSpec] at h
  split at h
  · cases h
    rfl
  · cases h

lemma filterMap_recordSpec_count (files : LogStream → FileState) (k : ErrKind) :
    ∀ (defs : List (ErrKind × RuleSet)),
    ((defs.filterMap (recordSpec files)).filter (fun r => r.kind = k)).length
      ≤ (defs.filter (fun p => p.1 = k)).length := by
  intro defs
  induction defs with
  | nil => exact Nat.le_refl 0
  | cons p ds ih =>
    rw [List.filterMap_cons]
    cases hr : recordSpec files p with
    | none =>
      by_cases hk : p.1 = k
      · rw [List.filter_cons_of_pos (by simpa using hk)]
        exact Nat.le_succ_of_le ih
      · rw [List.filter_cons_of_neg (by simpa using hk)]
        exact ih
    | some r =>
      have hkind := recordSpec_kind files p r hr
      by_cases hk : r.kind = k
      · rw [List.filter_cons_of_pos (by simpa using hk),
          List.filter_cons_of_pos (by simpa using (hkind ▸ hk : p.1 = k))]
        exact Nat.succ_le_succ ih
      · rw [List.filter_cons_of_neg (by simpa using hk)]
        by_cases hpk : p.1 = k
        · rw [List.filter_cons_of_pos (by simpa using hpk)]
          exact Nat.le_succ_of_le ih
        · rw [List.filter_cons_of_neg (by simpa using hpk)]
          exact ih

lemma streamMatchMsg_content (files : LogStream → FileState) (kr : LogStream × Rule)
    (s : PyStr) (h : files kr.1 = .content s) :
    streamMatchMsg files kr
      = (splitNl s).reverse.find? (fun line => isSub kr.2.string line) := by
  rw [streamMatchMsg, h]

lemma extractOf_content (files : LogStream → FileState) (kr : LogStream × Rule)
    (s : PyStr) (h : files kr.1 = .content s) :
    extractOf files kr = some (extract_metadata (splitNl s) kr.2.meta_filter) := by
  rw [extractOf, h]

lemma metaSpec_single (files : LogStream → FileState) (stm : LogStream) (rule : Rule) :
    metaSpec files [(stm, rule)]
      = if (streamMatchMsg files (stm, rule)).isSome then extractOf files (stm, rule)
        else none := by
  rw [show metaSpec files [(stm, rule)]
      = if (streamMatchMsg files (stm, rule)).isSome then
          (([] : RuleSet).reverse.findSome? (extractOf files)).or
            (extractOf files (stm, rule))
        else metaSpec files [] from rfl]
  rw [List.reverse_nil, List.findSome?_nil, Option.none_or, metaSpec]

lemma metaSpec_single_empty (files : LogStream → FileState) (stm : LogStream)
    (s0 : PyStr) (d : MetaDict)
    (h : metaSpec files [(stm, ⟨s0, []⟩)] = some d) : d = [] := by
  rw [metaSpec_single] at h
  split at h
  · rw [extractOf] at h
    revert h
    rcases hfs : files stm with s | _ | _ <;> intro h
    · cases h
      rfl
    · cases h
    · cases h
  · cases h

lemma limit_mkError_empty_rules (files : LogStream → FileState) (k : ErrKind)
    (stm : LogStream) (s0 : PyStr) :
    ErrRecord.limit (mkError k (msgSpec files [(stm, ⟨s0, []⟩)])
      (metaSpec files [(stm, ⟨s0, []⟩)])) = none := by
  cases hmeta : metaSpec files [(stm, ⟨s0, []⟩)] with
  | none => rfl
  | some d =>
    have hd := metaSpec_single_empty files stm s0 d hmeta
    subst hd
    rfl

lemma foundSpec_missing (rules : RuleSet) :
    foundSpec (fun _ => FileState.missing) rules = false := by
  rw [foundSpec, List.any_eq_false]
  intro kr _
  rw [show streamMatchMsg (fun _ => FileState.missing) kr = none from rfl]
  simp

/-! ### Claim theorems -/

/-- Claim C1: for the Slurm rule table, matching is independent per error
kind: any completed parse pass over files whose `batch_err` stream contains
the QOS-violation line emits both a `SubmitError` record (its shorter match
string is a substring of that line) and a `FullQueueError` record (its
longer match string also occurs); one kind firing never suppresses
another. -/
theorem C1_qos_line_fires_both_kinds (files : LogStream → FileState) (c : PyStr)
    (l : List ErrRecord)
    (hb : files .batch_err = .content c)
    (hline : qosLine ∈ splitNl c)
    (hp : parse slurm_error_definitions files [] = .ok l) :
    ((∃ r ∈ l, r.kind = .SubmitError) ∧ (∃ r ∈ l, r.kind = .FullQueueError))
    ∧ isSub submitRule.string qosLine = true
    ∧ isSub fullQueueRule.string qosLine = true := by
  have hnb := parse_ok_noBad files slurm_error_definitions [] l hp
  have heq := parse_eq files slurm_error_definitions hnb []
  rw [hp] at heq
  injection heq with hl
  rw [List.nil_append] at hl
  subst hl
  refine ⟨⟨?_, ?_⟩, by decide, by decide⟩
  · have hfound : foundSpec files [(LogStream.batch_err, submitRule)] = true := by
      rw [foundSpec, List.any_cons, List.any_nil, Bool.or_false,
        streamMatchMsg_isSome_content files (LogStream.batch_err, submitRule) c hb]
      exact List.any_eq_true.mpr ⟨qosLine, hline, by decide⟩
    refine ⟨mkError ErrKind.SubmitError
      (msgSpec files [(LogStream.batch_err, submitRule)])
      (metaSpec files [(LogStream.batch_err, submitRule)]), ?_, rfl⟩
    exact List.mem_filterMap.mpr
      ⟨(ErrKind.SubmitError, [(LogStream.batch_err, submitRule)]),
        List.mem_cons_self _ _, by rw [recordSpec, if_pos hfound]⟩
  · have hfound : foundSpec files [(LogStream.batch_err, fullQueueRule)] = true := by
      rw [foundSpec, List.any_cons, List.any_nil, Bool.or_false,
        streamMatchMsg_isSome_content files (LogStream.batch_err, fullQueueRule) c hb]
      exact List.any_eq_true.mpr ⟨qosLine, hline, by decide⟩
    refine ⟨mkError ErrKind.FullQueueError
      (msgSpec files [(LogStream.batch_err, fullQueueRule)])
      (metaSpec files [(LogStream.batch_err, fullQueueRule)]), ?_, rfl⟩
    exact List.mem_filterMap.mpr
      ⟨(ErrKind.FullQueueError, [(LogStream.batch_err, fullQueueRule)]),
        List.mem_cons_of_mem _ (List.mem_cons_self _ _),
        by rw [recordSpec, if_pos hfound]⟩

/-- Witness for C1 at files whose `batch_err` holds exactly the QOS line. -/
theorem C1_witness :
    qosFiles .batch_err = .content qosLine
    ∧ qosLine ∈ splitNl qosLine
    ∧ parse slurm_error_definitions qosFiles [] = .ok qosRecords
    ∧ (((∃ r ∈ qosRecords, r.kind = .SubmitError)
        ∧ (∃ r ∈ qosRecords, r.kind = .FullQueueError))
       ∧ isSub submitRule.string qosLine = true
       ∧ isSub fullQueueRule.string qosLine = true) :=
  ⟨rfl, by decide, by decide,
    C1_qos_line_fires_both_kinds qosFiles qosLine qosRecords rfl (by decide) (by decide)⟩

/-- Claim C2: for every stream content and every rule, a line matches iff
the rule's match string occurs as a plain contiguous substring of the line,
and the message component of the scan result is the full text of the last
matching line of the stream (later hits overwrite earlier ones). -/
theorem C2_substring_last_match (rule : Rule) (stm : LogStream) (c : PyStr)
    (files : LogStream → FileState) (h : files stm = .content c) :
    (parse_single [(stm, rule)] files =
      .ok ((splitNl c).any (fun line => isSub rule.string line),
        ((splitNl c).filter (fun line => isSub rule.string line)).getLast?,
        if (splitNl c).any (fun line => isSub rule.string line) then
          some (extract_metadata (splitNl c) rule.meta_filter)
        else none))
    ∧ ∀ sub line : PyStr, isSub sub line = true ↔ sub <:+: line := by
  constructor
  · have hnb : ∀ kr ∈ [(stm, rule)], files kr.1 ≠ FileState.badPath := by
      intro kr hkr
      rcases List.mem_cons.mp hkr with rfl | hk
      · intro hbad
        rw [h] at hbad
        cases hbad
      · cases hk
    rw [parse_single_eq files _ hnb]
    have hsm := streamMatchMsg_content files (stm, rule) c h
    refine congrArg Except.ok ?_
    refine Prod.ext ?_ (Prod.ext ?_ ?_)
    · show foundSpec files [(stm, rule)] = _
      rw [foundSpec, List.any_cons, List.any_nil, Bool.or_false, hsm,
        findRev_isSome]
    · show msgSpec files [(stm, rule)] = _
      rw [msgSpec, List.reverse_cons, List.reverse_nil, List.nil_append,
        findSome?_singleton, hsm, revFind?_eq_filter_getLast?]
    · show metaSpec files [(stm, rule)] = _
      rw [metaSpec_single, hsm, findRev_isSome,
        extractOf_content files (stm, rule) c h]
  · exact fun sub line => isSub_iff sub line

/-- Witness for C2 at a three-line stream whose first and third lines
contain the match string. -/
theorem C2_witness :
    c2Files .err = .content c2Content
    ∧ ((parse_single [(LogStream.err, c2Rule)] c2Files =
        .ok ((splitNl c2Content).any (fun line => isSub c2Rule.string line),
          ((splitNl c2Content).filter (fun line => isSub c2Rule.string line)).getLast?,
          if (splitNl c2Content).any (fun line => isSub c2Rule.string line) then
            some (extract_metadata (splitNl c2Content) c2Rule.meta_filter)
          else none))
      ∧ ∀ sub line : PyStr, isSub sub line = true ↔ sub <:+: line) :=
  ⟨rfl, C2_substring_last_match c2Rule .err c2Content c2Files rfl⟩

/-- Claim C3: a `run_err` stream holding exactly the two node-failure lines
yields exactly one `NodeFailureError` record whose `node` metadata is the
deduplicated, sorted list `["003", "017"]` (capture group 1 of the
node-failure pattern). -/
theorem C3_node_failure_metadata :
    parse slurm_error_definitions nodeFiles [] =
      .ok [⟨.NodeFailureError, some nodeLine2, [(str "node", [str "003", str "017"])]⟩]
    ∧ ErrRecord.node ⟨.NodeFailureError, some nodeLine2,
        [(str "node", [str "003", str "017"])]⟩ = some [str "003", str "017"] :=
  ⟨by decide, by decide⟩

/-- Claim C4: metadata extraction anchors each filter's pattern at the
start of each line (a successful match consumes a prefix; an occurrence
not at the start is missed), collects the configured capture group of each
match, deduplicates and sorts the values, and stores the result under the
field name even when empty, so the output keys are exactly the filter's
keys. -/
theorem C4_extract_metadata_spec (lines : List PyStr) (filters : MetaFilter)
    (h : (filters.map (fun kf => kf.1)).Nodup) :
    extract_metadata lines filters =
      filters.map (fun kf =>
        (kf.1, sorted_set (lines.filterMap (fun line => reGroup kf.2.1 kf.2.2 line))))
    ∧ (extract_metadata lines filters).map (fun kv => kv.1)
        = filters.map (fun kf => kf.1)
    ∧ (∀ vs : List PyStr, List.Sorted lexR (sorted_set vs) ∧ (sorted_set vs).Nodup ∧
        ∀ v, v ∈ sorted_set vs ↔ v ∈ vs)
    ∧ (∀ (pat : List RItem) (g : Groups) (rest line : PyStr),
        matchItems pat line = some (g, rest) → rest <:+ line)
    ∧ matchItems nodePattern (' ' :: nodeLine1) = none := by
  have he := extract_metadata_eq lines filters h
  refine ⟨he, ?_, sorted_set_spec,
    fun pat g rest line => matchItems_suffix pat line g rest, by decide⟩
  rw [he, List.map_map]
  rfl

/-- Witness for C4 at the node-failure filter and one node line. -/
theorem C4_witness :
    (([(str "node", nodePattern, 1)] : MetaFilter).map (fun kf => kf.1)).Nodup
    ∧ (extract_metadata [nodeLine1] [(str "node", nodePattern, 1)] =
        ([(str "node", nodePattern, 1)] : MetaFilter).map (fun kf =>
          (kf.1, sorted_set ([nodeLine1].filterMap
            (fun line => reGroup kf.2.1 kf.2.2 line))))
      ∧ (extract_metadata [nodeLine1] [(str "node", nodePattern, 1)]).map (fun kv => kv.1)
          = ([(str "node", nodePattern, 1)] : MetaFilter).map (fun kf => kf.1)
      ∧ (∀ vs : List PyStr, List.Sorted lexR (sorted_set vs) ∧ (sorted_set vs).Nodup ∧
          ∀ v, v ∈ sorted_set vs ↔ v ∈ vs)
      ∧ (∀ (pat : List RItem) (g : Groups) (rest line : PyStr),
          matchItems pat line = some (g, rest) → rest <:+ line)
      ∧ matchItems nodePattern (' ' :: nodeLine1) = none) :=
  ⟨by decide,
    C4_extract_metadata_spec [nodeLine1] [(str "node", nodePattern, 1)] (by decide)⟩

/-- Claim C5: for every rule table (hence every scheduler parser), a parse
pass with every referenced file missing (each `open` raising `IOError`)
leaves the accumulated error list unchanged — empty when starting empty —
and never raises. -/
theorem C5_all_missing_yields_empty (defs : List (ErrKind × RuleSet))
    (e0 : List ErrRecord) :
    parse defs (fun _ => FileState.missing) e0 = .ok e0 := by
  have hnb : ∀ p ∈ defs, ∀ kr ∈ p.2,
      (fun _ : LogStream => FileState.missing) kr.1 ≠ FileState.badPath :=
    fun _ _ _ _ h => FileState.noConfusion h
  rw [parse_eq (fun _ => FileState.missing) defs hnb e0]
  have hnil : defs.filterMap (recordSpec (fun _ => FileState.missing)) = [] := by
    rw [List.filterMap_eq_nil_iff]
    intro p _
    rw [recordSpec, foundSpec_missing]
    simp
  rw [hnil, List.append_nil]

/-- Claim C6: every scheduler name not registered in `ALL_PARSERS` makes
the factory fail (the `None` returned by the dictionary lookup is called,
raising `TypeError`) and no parser instance is constructed. -/
theorem C6_unknown_scheduler_errors (s : PyStr) (e o r b : FileState)
    (h1 : s ≠ str "slurm") (h2 : s ≠ str "pbs") :
    getParser s e o r b = .error .typeErrorNotCallable
    ∧ ∀ pr : SchedulerParser, getParser s e o r b ≠ .ok pr := by
  have hnone : ALL_PARSERS s = none := by
    rw [ALL_PARSERS, if_neg h1, if_neg h2]
  have hmain : getParser s e o r b = .error .typeErrorNotCallable := by
    rw [getParser, hnone]
  exact ⟨hmain, fun pr hpr => by rw [hmain] at hpr; cases hpr⟩

/-- Witness for C6 at the name `unknown_backend`. -/
theorem C6_witness :
    str "unknown_backend" ≠ str "slurm" ∧ str "unknown_backend" ≠ str "pbs"
    ∧ (getParser (str "unknown_backend") .missing .missing .missing .missing
        = .error .typeErrorNotCallable
      ∧ ∀ pr : SchedulerParser,
          getParser (str "unknown_backend") .missing .missing .missing .missing
            ≠ .ok pr) :=
  ⟨by decide, by decide,
    C6_unknown_scheduler_errors (str "unknown_backend") _ _ _ _
      (by decide) (by decide)⟩

/-- Claim C7 (code bug in the source): a wrongly typed file path should be
reported as a configuration problem and only that stream skipped, but the
`except TypeError` handler evaluates `self.files[k].cls()`, which no object
has, so the handler itself raises `AttributeError` and the whole parse
aborts: with only `batch_err` misconfigured (the default `None`), `parse`
produces no records and propagates an exception. -/
theorem C7_bad_path_aborts_parse :
    parse slurm_error_definitions badPathFiles [] = .error .attributeError := by
  decide

/-- Claim C8: calling `parse` twice with unchanged files doubles the
accumulated list, the second half duplicating the first — no deduplication
and no reset. -/
theorem C8_parse_twice_doubles (defs : List (ErrKind × RuleSet))
    (files : LogStream → FileState) (l : List ErrRecord)
    (h : parse defs files [] = .ok l) :
    parse defs files l = .ok (l ++ l) := by
  rw [parse_append defs files l, h]
  rfl

/-- Witness for C8 with the Slurm table over the QOS-line files. -/
theorem C8_witness :
    parse slurm_error_definitions qosFiles [] = .ok qosRecords
    ∧ parse slurm_error_definitions qosFiles qosRecords
        = .ok (qosRecords ++ qosRecords) :=
  ⟨by decide,
    C8_parse_twice_doubles slurm_error_definitions qosFiles qosRecords (by decide)⟩

/-- Counterexample to claim C9 as stated: for a kind whose rule set spans
`err`, `out`, `run_err` with matches in `err` and `out` only, the single
emitted record takes its message from `out` (not the last stream processed)
and its metadata from `run_err` (which matched nothing): no single stream
of the set, processed alone, reproduces the record. -/
theorem C9_counterexample :
    parse mixDefs mixFiles [] = .ok [mixRecord]
    ∧ (∀ kr ∈ mixRules,
        parse [(ErrKind.DiskError, [kr])] mixFiles [] ≠ .ok [mixRecord]) :=
  ⟨by decide, by decide⟩

/-- Claim C9 (amended): one pass emits at most one record per kind; the
record's message comes from the last stream processed that has a match
(`msgSpec`) while its metadata is extracted from the last successfully read
stream processed at or after the first match (`metaSpec`) — the `found`
flag latches, so a later readable stream overwrites the metadata even
without a match of its own; the two can therefore come from different
streams. -/
theorem C9_amended_one_record_per_kind (defs : List (ErrKind × RuleSet))
    (files : LogStream → FileState) (e0 : List ErrRecord)
    (h : ∀ p ∈ defs, ∀ kr ∈ p.2, files kr.1 ≠ FileState.badPath) :
    parse defs files e0 = .ok (e0 ++ defs.filterMap (recordSpec files))
    ∧ ∀ k : ErrKind,
      ((defs.filterMap (recordSpec files)).filter (fun r => r.kind = k)).length
        ≤ (defs.filter (fun p => p.1 = k)).length :=
  ⟨parse_eq files defs h e0, fun k => filterMap_recordSpec_count files k defs⟩

/-- Witness for the amended C9 at the mixed-stream scenario. -/
theorem C9_witness :
    (∀ p ∈ mixDefs, ∀ kr ∈ p.2, mixFiles kr.1 ≠ FileState.badPath)
    ∧ (parse mixDefs mixFiles [] = .ok ([] ++ mixDefs.filterMap (recordSpec mixFiles))
      ∧ ∀ k : ErrKind,
        ((mixDefs.filterMap (recordSpec mixFiles)).filter (fun r => r.kind = k)).length
          ≤ (mixDefs.filter (fun p => p.1 = k)).length) :=
  ⟨by decide, C9_amended_one_record_per_kind mixDefs mixFiles [] (by decide)⟩

/-- Claim C10: every `TimeCancelError` or `MemoryCancelError` record
produced by a Slurm parse has `limit = none`: the built-in rules for these
kinds declare no metadata filters, so `broken_limit` is never present. -/
theorem C10_cancel_limit_none (files : LogStream → FileState) (l : List ErrRecord)
    (hp : parse slurm_error_definitions files [] = .ok l) :
    ∀ r ∈ l, (r.kind = .TimeCancelError ∨ r.kind = .MemoryCancelError) →
      ErrRecord.limit r = none := by
  have hnb := parse_ok_noBad files slurm_error_definitions [] l hp
  have heq := parse_eq files slurm_error_definitions hnb []
  rw [hp] at heq
  injection heq with hl
  rw [List.nil_append] at hl
  subst hl
  intro r hr hkind
  obtain ⟨p, hpmem, hps⟩ := List.mem_filterMap.mp hr
  have hk := recordSpec_kind files p r hps
  simp only [slurm_error_definitions, List.mem_cons, List.not_mem_nil,
    or_false] at hpmem
  rcases hpmem with rfl | rfl | rfl | rfl | rfl | rfl
  · rcases hkind with hkind | hkind <;> rw [hk] at hkind <;>
      exact absurd hkind (by decide)
  · rcases hkind with hkind | hkind <;> rw [hk] at hkind <;>
      exact absurd hkind (by decide)
  · rw [recordSpec] at hps
    split at hps
    · injection hps with hmk
      rw [← hmk]
      exact limit_mkError_empty_rules files ErrKind.MemoryCancelError
        LogStream.err (str "Exceeded job memory limit")
    · cases hps
  · rw [recordSpec] at hps
    split at hps
    · injection hps with hmk
      rw [← hmk]
      exact limit_mkError_empty_rules files ErrKind.TimeCancelError
        LogStream.err (str "Exceeded job time limit")
    · cases hps
  · rcases hkind with hkind | hkind <;> rw [hk] at hkind <;>
      exact absurd hkind (by decide)
  · rcases hkind with hkind | hkind <;> rw [hk] at hkind <;>
      exact absurd hkind (by decide)

/-- Witness for C10 at files whose `err` stream holds the time-limit
line. -/
theorem C10_witness :
    parse slurm_error_definitions timeFiles [] = .ok [timeRecord]
    ∧ (∀ r ∈ [timeRecord],
        (r.kind = ErrKind.TimeCancelError ∨ r.kind = ErrKind.MemoryCancelError) →
          ErrRecord.limit r = none) :=
  ⟨by decide, C10_cancel_limit_none timeFiles [timeRecord] (by decide)⟩
